import Mathlib

/-!
Verification development for the fastcache package-manager core.

The JavaScript source is shallowly embedded: JS objects used as string-keyed
maps become association lists (`lookup` reads the first matching key, `setKey`
updates an existing key in place or appends a new one, exactly like JS
property read/assignment), async functions become pure functions over explicit
state records, and thrown errors become `Except` error values.
-/

namespace FastCache

/-- Association-list read, mirroring a JS object property read: the first
entry with the given key, if any. -/
def lookup {α : Type} : List (String × α) → String → Option α
  | [], _ => none
  | (k', v) :: rest, k => if k' = k then some v else lookup rest k

/-- Association-list write, mirroring a JS object property assignment
`obj[k] = v`: an existing key is updated in place (keeping its position),
a new key is appended at the end. -/
def setKey {α : Type} : List (String × α) → String → α → List (String × α)
  | [], k, v => [(k, v)]
  | (k', v') :: rest, k, v =>
      if k' = k then (k, v) :: rest else (k', v') :: setKey rest k v

/-- Keys of an association list. -/
def keys {α : Type} (l : List (String × α)) : List String := l.map (·.1)

/-! ## Semantic-version model

Modelled from the spec: the external `semver` library consumed by
`src/resolver` (part_003) is not part of this repository; §4.1 of the spec
fixes its contract (caret / tilde / comparator / exact / wildcard ranges under
standard semantic-version ordering).  Versions are plain `major.minor.patch`
triples, which covers every version string appearing in the repository and in
the claims; a string that does not parse satisfies no range, and a range that
is none of the recognised forms (for example a URL or tag) is satisfied by no
version, matching `semver`'s treatment of invalid ranges. -/

/-- Split a character list at every dot (the behaviour of
`"…".split('.')` on the characters of a version string). -/
def splitDots : List Char → List (List Char)
  | [] => [[]]
  | c :: rest =>
    if c = '.' then [] :: splitDots rest
    else
      match splitDots rest with
      | [] => [[c]]
      | g :: gs => (c :: g) :: gs

/-- Parse a non-empty all-digit character list as a natural number. -/
def digitsToNat : List Char → Option Nat
  | [] => none
  | cs =>
    if cs.all Char.isDigit then
      some (cs.foldl (fun n c => n * 10 + (c.toNat - 48)) 0)
    else none

/-- Parse a `major.minor.patch` version string. -/
def parseVersion (s : String) : Option (Nat × Nat × Nat) :=
  match splitDots s.data with
  | [a, b, c] =>
    match digitsToNat a, digitsToNat b, digitsToNat c with
    | some x, some y, some z => some (x, y, z)
    | _, _, _ => none
  | _ => none

/-- Strict ordering of parsed versions: lexicographic on
(major, minor, patch). -/
def verLt (a b : Nat × Nat × Nat) : Bool :=
  a.1 < b.1 ∨ (a.1 = b.1 ∧ (a.2.1 < b.2.1 ∨ (a.2.1 = b.2.1 ∧ a.2.2 < b.2.2)))

/-- Non-strict ordering of parsed versions. -/
def verLe (a b : Nat × Nat × Nat) : Bool := a = b || verLt a b

/-- Does version `v` satisfy range `range`?  Modelled from the spec (§4.1):
`*` admits every version; `^x.y.z` admits versions that do not change the
leftmost non-zero component; `~x.y.z` admits patch-level changes within the
same minor; `>=x.y.z` applies literally; a bare version is an exact match;
anything else (URLs, tags such as `latest`, malformed strings) is an invalid
range that no version satisfies. -/
def satisfies (v : String) (range : String) : Bool :=
  match parseVersion v with
  | none => false
  | some pv =>
    if range = "*" then true
    else
      match range.data with
      | '^' :: rest =>
        match parseVersion (String.mk rest) with
        | none => false
        | some r =>
          if 0 < r.1 then pv.1 = r.1 && verLe r pv
          else if 0 < r.2.1 then pv.1 = 0 && pv.2.1 = r.2.1 && verLe r pv
          else pv = r
      | '~' :: rest =>
        match parseVersion (String.mk rest) with
        | none => false
        | some r => pv.1 = r.1 && pv.2.1 = r.2.1 && verLe r pv
      | '>' :: '=' :: rest =>
        match parseVersion (String.mk rest) with
        | none => false
        | some r => verLe r pv
      | _ =>
        match parseVersion range with
        | none => false
        | some r => pv = r

/-- Highest version in `versionList` satisfying `range`, or `none`; modelled
from the spec: `semver.maxSatisfying` (§4.1 "return the maximum available
version that satisfies the range"). -/
def maxSatisfying (versionList : List String) (range : String) : Option String :=
  versionList.foldl
    (fun best v =>
      if satisfies v range then
        match best with
        | none => some v
        | some b =>
          match parseVersion b, parseVersion v with
          | some pb, some pv => if verLt pb pv then some v else some b
          | _, _ => some b
      else best)
    none

/-! ## Resolver (src/resolver, embedded from part_003 lines 93-196) -/

/-- Version record inside registry metadata: its declared dependencies as a
name-to-range map (`pkgInfo.dependencies`, `{}` when absent). -/
structure VersionRecord where
  dependencies : List (String × String)
deriving DecidableEq, Repr

/-- The JS expression `range.replace(/[^0-9.]/g, '')` (part_003 line 186):
drop every character that is not a digit or a dot. -/
def cleanedRange (range : String) : String :=
  String.mk (range.data.filter (fun c => c.isDigit || c = '.'))

/-- Membership of a string in a list (`versionList.includes(cleanRange)`). -/
def containsString : List String → String → Bool
  | [], _ => false
  | v :: rest, s => if v = s then true else containsString rest s

/-- Embedding of `DependencyResolver.selectVersion` (part_003 lines 173-193):
`*` and `latest` pick the maximum version; otherwise `semver.maxSatisfying`
picks the best match, and when it finds none the code falls back to stripping
the range down to its digits and dots and returning that string if it is an
available version, else `null`. -/
def selectVersion (versions : List (String × VersionRecord)) (range : String) :
    Option String :=
  let versionList := versions.map (·.1)
  if range = "*" ∨ range = "latest" then
    maxSatisfying versionList "*"
  else
    match maxSatisfying versionList range with
    | some matched => some matched
    | none =>
      if containsString versionList (cleanedRange range) then
        some (cleanedRange range)
      else none

/-- Registry metadata for one package name: its available versions
(`metadata.versions`). -/
structure PackageMetadata where
  versions : List (String × VersionRecord)
deriving DecidableEq, Repr

/-- The metadata provider, as a finite map from package name to metadata; a
name outside the map makes the metadata fetch fail upstream. -/
abbrev Registry := List (String × PackageMetadata)

/-- Entry of the flat ResolvedTree: `tree[name] = {version, dependencies}`. -/
structure TreeEntry where
  version : String
  dependencies : List (String × String)
deriving DecidableEq, Repr

/-- Resolver state threaded through `resolveDependency`: the in-progress flat
tree, the `"name@range"` memo (`this.resolved`), and a log of the names for
which the resolver queried the metadata provider
(`this.registry.getPackageMetadata` calls), in order. -/
structure RState where
  tree : List (String × TreeEntry)
  memo : List (String × String)
  queries : List String
deriving DecidableEq, Repr

/-- Errors thrown by the resolver: the circular-dependency depth guard, the
no-matching-version failure, an upstream metadata-fetch failure (unknown
name), and the JS TypeError that would occur if the selected version had no
record (unreachable, kept for totality). -/
inductive RErr where
  | circular (name : String)
  | noMatching (name range : String)
  | fetch (name : String)
  | missingRecord (name version : String)
deriving DecidableEq, Repr

mutual

/-- Fresh-resolution path of `resolveDependency` (part_003 lines 136-165):
fetch metadata, select a version, overwrite `tree[name]` with the selected
version and its dependencies, memoize `"name@range"`, then recursively
resolve the chosen version's dependencies at `depth + 1`. -/
def resolveFresh (reg : Registry) (name range : String) (st : RState)
    (depth : Nat) (h : depth ≤ 100) : Except RErr (String × RState) :=
  match lookup reg name with
  | none => .error (.fetch name)
  | some metadata =>
    let st1 : RState := { st with queries := st.queries ++ [name] }
    match selectVersion metadata.versions range with
    | none => .error (.noMatching name range)
    | some version =>
      match lookup metadata.versions version with
      | none => .error (.missingRecord name version)
      | some pkgInfo =>
        let st2 : RState :=
          { st1 with
            tree := setKey st1.tree name ⟨version, pkgInfo.dependencies⟩,
            memo := setKey st1.memo (name ++ "@" ++ range) version }
        match resolveDeps reg pkgInfo.dependencies st2 (depth + 1) with
        | .error e => .error e
        | .ok st3 => .ok (version, st3)
termination_by (101 - depth, 0)
decreasing_by apply Prod.Lex.left; omega

/-- Embedding of `DependencyResolver.resolveDependency` (part_003 lines
113-170): depth guard, memo lookup, compatible-tree-entry fast path, then the
fresh-resolution path. -/
def resolveDependency (reg : Registry) (name range : String) (st : RState)
    (depth : Nat) : Except RErr (String × RState) :=
  if h : depth > 100 then .error (.circular name)
  else
    match lookup st.memo (name ++ "@" ++ range) with
    | some resolvedVersion =>
      let st' : RState :=
        match lookup st.tree name with
        | some _ => st
        | none => { st with tree := setKey st.tree name ⟨resolvedVersion, []⟩ }
      .ok (resolvedVersion, st')
    | none =>
      match lookup st.tree name with
      | some entry =>
        if satisfies entry.version range then .ok (entry.version, st)
        else resolveFresh reg name range st depth (by omega)
      | none => resolveFresh reg name range st depth (by omega)
termination_by (101 - depth, 1)
decreasing_by all_goals (apply Prod.Lex.right; omega)

/-- Embedding of the sub-dependency loop (part_003 lines 159-163, and the
top-level loop of `resolve`, lines 105-107): resolve each `(name, range)`
entry in order, threading the state. -/
def resolveDeps (reg : Registry) (deps : List (String × String)) (st : RState)
    (depth : Nat) : Except RErr RState :=
  match deps with
  | [] => .ok st
  | (depName, depRange) :: rest =>
    match resolveDependency reg depName depRange st depth with
    | .error e => .error e
    | .ok (_, st') => resolveDeps reg rest st' depth
termination_by (101 - depth, deps.length + 2)
decreasing_by all_goals (apply Prod.Lex.right; simp only [List.length_cons]; omega)

end

/-- Embedding of `DependencyResolver.resolve` (part_003 lines 100-110) for a
freshly constructed resolver: iterate the top-level dependency map at depth 0
over an empty tree, empty memo and empty query log; the resulting state's
`tree` field is the returned ResolvedTree. -/
def resolve (reg : Registry) (dependencies : List (String × String)) :
    Except RErr RState :=
  resolveDeps reg dependencies ⟨[], [], []⟩ 0

/-! ## Registry client: in-flight download deduplication
(src/registry-client.js lines 42-63)

The JS runtime is a single-threaded event loop; `downloadPackage` runs
synchronously from its entry through the check-then-insert of
`activeDownloads` (the first suspension point is inside the awaited
`_performDownload` promise), so that section is one atomic step, and the
`finally` that deletes the key runs as one atomic step when the shared
promise settles.  The embedding models these two atomic steps as pure state
transitions; a pending promise is identified by the id of its underlying
`_performDownload` execution, and `executions` logs each execution ever
started. -/

/-- Mutable state of a `RegistryClient`: the in-flight registry
`activeDownloads` mapping a download key to the id of its pending execution,
a counter supplying fresh execution ids, and the log of underlying
`_performDownload` executions started so far. -/
structure ClientState where
  activeDownloads : List (String × Nat)
  nextExecId : Nat
  executions : List Nat
deriving DecidableEq, Repr

/-- The in-flight key: `` `${packageName}@${version}:${targetPath}` ``
(registry-client.js line 43). -/
def downloadKey (packageName version targetPath : String) : String :=
  packageName ++ "@" ++ version ++ ":" ++ targetPath

/-- Synchronous entry section of `downloadPackage` (lines 43-54): if the key
is already in flight, return the existing pending execution and change
nothing; otherwise start a new underlying execution and register it under the
key.  Returns the execution id whose eventual result this call awaits. -/
def downloadPackageStart (s : ClientState)
    (packageName version targetPath : String) : Nat × ClientState :=
  let key := downloadKey packageName version targetPath
  match lookup s.activeDownloads key with
  | some execId => (execId, s)
  | none =>
    let execId := s.nextExecId
    (execId,
      { s with
        activeDownloads := setKey s.activeDownloads key execId,
        nextExecId := execId + 1,
        executions := s.executions ++ [execId] })

/-- Outcome with which a pending download settles. -/
inductive Outcome where
  | success
  | failure
deriving DecidableEq, Repr

/-- Settlement step of `downloadPackage` (the `finally` on lines 59-62): when
the pending operation for a key settles, the in-flight entry is deleted
regardless of the outcome. -/
def downloadPackageSettle (s : ClientState)
    (packageName version targetPath : String) (_outcome : Outcome) :
    ClientState :=
  { s with
    activeDownloads :=
      (s.activeDownloads).filter
        (fun kv => !(kv.1 = downloadKey packageName version targetPath)) }

/-! ## Registry client: `_performDownload`
(src/registry-client.js lines 65-116) -/

/-- Tarball location of a published version (`versionData.dist.tarball`). -/
structure DistInfo where
  tarball : String
deriving DecidableEq, Repr

/-- Version entry of the npm registry metadata used by the download path. -/
structure RegVersionData where
  dist : DistInfo
deriving DecidableEq, Repr

/-- Registry metadata consumed by `_performDownload`. -/
structure RegMetadata where
  versions : List (String × RegVersionData)
deriving DecidableEq, Repr

/-- External-world behaviour of one `_performDownload` run: the result of the
metadata fetch (`getPackageMetadata`, which wraps transport failures itself),
of the tarball download-and-save (lines 87-95), and of the extraction (lines
99-103).  Errors are their JS `error.message` strings. -/
structure DownloadEnv where
  metadata : Except String RegMetadata
  tarballFetch : Except String Unit
  extraction : Except String Unit
deriving Repr

/-- Filesystem facts observable after a `_performDownload` run: whether the
uniquely-named staging directory was ever created, and whether it still
exists at the end. -/
structure StagingState where
  created : Bool
  present : Bool
deriving DecidableEq, Repr

/-- Embedding of `RegistryClient._performDownload` (lines 65-116): metadata
fetch and version lookup happen before the staging directory is created;
the tarball download and the extraction run inside the `try` whose `catch`
removes the staging directory and throws
`` `Failed to download ${packageName}@${version}: ${error.message}` ``;
on success the staging directory is removed and the target path returned. -/
def performDownload (env : DownloadEnv)
    (packageName version targetPath : String) :
    Except String String × StagingState :=
  match env.metadata with
  | .error e => (.error e, ⟨false, false⟩)
  | .ok metadata =>
    match lookup metadata.versions version with
    | none =>
      (.error ("Version " ++ version ++ " not found for " ++ packageName),
       ⟨false, false⟩)
    | some _ =>
      match env.tarballFetch with
      | .error e =>
        (.error ("Failed to download " ++ packageName ++ "@" ++ version ++
                 ": " ++ e),
         ⟨true, false⟩)
      | .ok _ =>
        match env.extraction with
        | .error e =>
          (.error ("Failed to download " ++ packageName ++ "@" ++ version ++
                   ": " ++ e),
           ⟨true, false⟩)
        | .ok _ => (.ok targetPath, ⟨true, false⟩)

/-! ## Cache manager: metadata records (src/cache-manager.js lines 66-86) -/

/-- JSON values appearing in package metadata records. -/
inductive JsonValue where
  | str (s : String)
  | num (n : Nat)
deriving DecidableEq, Repr

/-- A parsed metadata JSON object, as an ordered key-value map. -/
abbrev MetaRecord := List (String × JsonValue)

/-- The metadata file store: `metadata/` directory contents, mapping file
name to parsed record. -/
abbrev MetaStore := List (String × MetaRecord)

/-- Metadata file name for an identity: `` `${name}@${version}.json` ``
(cache-manager.js lines 74, 135). -/
def metaFileName (name version : String) : String :=
  name ++ "@" ++ version ++ ".json"

/-- JS shallow merge `{ ...metadata, ...data }` (cache-manager.js line 84):
every key of `data` overrides or extends `metadata`; keys only in `metadata`
are preserved. -/
def mergeShallow (metadata data : MetaRecord) : MetaRecord :=
  data.foldl (fun acc kv => setKey acc kv.1 kv.2) metadata

/-- Embedding of `CacheManager.updateMetadata` (lines 73-86): read the
existing record (an absent or unreadable file reads as `{}`), shallow-merge
the patch into it, and write it back. -/
def updateMetadata (store : MetaStore) (name version : String)
    (data : MetaRecord) : MetaStore :=
  let metaPath := metaFileName name version
  let metadata := (lookup store metaPath).getD []
  setKey store metaPath (mergeShallow metadata data)

/-- Embedding of `CacheManager.touchPackage` (lines 66-70): update the
metadata with the single-field patch `{ lastUsed: now }`. -/
def touchPackage (store : MetaStore) (name version : String) (now : String) :
    MetaStore :=
  updateMetadata store name version [("lastUsed", .str now)]

/-! ## Cache manager: `deletePackage` (src/cache-manager.js lines 133-145) -/

/-- On-disk situation of one package identity: whether its store slot
directory and its metadata file exist. -/
structure CacheFs where
  slotExists : Bool
  metaExists : Bool
deriving DecidableEq, Repr

/-- External-world behaviour of one `deletePackage` run: whether
`fs.rm(pkgPath, …)` and `fs.rm(metaPath, …)` would raise if attempted
(with `force: true` an absent target is not an error, so a failure here
stands for an I/O error such as a permission failure). -/
structure DeleteEnv where
  slotRmFails : Bool
  metaRmFails : Bool
deriving DecidableEq, Repr

/-- Observable outcome of `deletePackage`: the returned boolean (the function
catches internally and never throws), whether each removal was attempted,
and the final on-disk state. -/
structure DeleteOutcome where
  returned : Bool
  slotRmAttempted : Bool
  metaRmAttempted : Bool
  fs : CacheFs
deriving DecidableEq, Repr

/-- Embedding of `CacheManager.deletePackage` (lines 133-145): one `try`
block removes the slot directory and then the metadata file in sequence and
returns `true`; the `catch` logs and returns `false`.  A failure of the first
`fs.rm` therefore skips the second one. -/
def deletePackage (env : DeleteEnv) (fsState : CacheFs) : DeleteOutcome :=
  if env.slotRmFails then
    ⟨false, true, false, fsState⟩
  else if env.metaRmFails then
    ⟨false, true, true, { fsState with slotExists := false }⟩
  else
    ⟨true, true, true, ⟨false, false⟩⟩

/-! ## Link manager (src/link-manager.js) -/

/-- A node of the source package tree, with the external-world behaviour of
the per-file operations: whether `fs.link` would fail for this file (e.g.
cross-device) and whether `fs.copyFile` would fail for it. -/
inductive SrcNode where
  | file (name content : String) (linkFails copyFails : Bool)
  | dir (name : String) (children : List SrcNode)

/-- A node of the materialized target tree, recording how each file was
produced. -/
inductive TgtNode where
  | hardlinked (name content : String)
  | copied (name content : String)
  | symlinked (name target : String)
  | dir (name : String) (children : List TgtNode)

mutual

/-- Embedding of `LinkManager.createHardLink` (link-manager.js lines 33-63):
a directory is mirrored and its entries processed one by one; a file inside a
directory is hardlinked, falling back to a byte copy of that single file when
the hardlink fails (lines 51-56), and the copy's own failure propagates; a
top-level single file is hardlinked with no fallback (line 61). -/
def createHardLink (node : SrcNode) : Except Unit TgtNode :=
  match node with
  | .file name content linkFails _ =>
    if linkFails then .error () else .ok (.hardlinked name content)
  | .dir name children =>
    match linkEntries children with
    | .error e => .error e
    | .ok out => .ok (.dir name out)

/-- Per-entry loop of `createHardLink`'s directory case (lines 44-58). -/
def linkEntries (entries : List SrcNode) : Except Unit (List TgtNode) :=
  match entries with
  | [] => .ok []
  | .file name content linkFails copyFails :: rest =>
    let one : Except Unit TgtNode :=
      if !linkFails then .ok (.hardlinked name content)
      else if !copyFails then .ok (.copied name content)
      else .error ()
    match one with
    | .error e => .error e
    | .ok t =>
      match linkEntries rest with
      | .error e => .error e
      | .ok ts => .ok (t :: ts)
  | .dir name children :: rest =>
    match createHardLink (.dir name children) with
    | .error e => .error e
    | .ok t =>
      match linkEntries rest with
      | .error e => .error e
      | .ok ts => .ok (t :: ts)

end

/-- External-world behaviour of the coarse fallback strategies of
`linkPackage`: whether `fs.symlink` on the whole target would fail, and
whether the recursive `fs.cp` copy would fail. -/
structure LinkEnv where
  symlinkFails : Bool
  wholeCopyFails : Bool
deriving DecidableEq, Repr

mutual

/-- Byte-for-byte recursive copy of the source tree (`fs.cp`,
link-manager.js line 26). -/
def copyTree : SrcNode → TgtNode
  | .file name content _ _ => .copied name content
  | .dir name children => .dir name (copyTrees children)

def copyTrees : List SrcNode → List TgtNode
  | [] => []
  | c :: rest => copyTree c :: copyTrees rest

end

/-- Embedding of `LinkManager.linkPackage` (lines 6-30), after the target
has been cleared: try the hardlink strategy, fall back to a single symlink
for the whole target, fall back to a full copy; return which strategy
succeeded together with the produced target tree. -/
def linkPackage (env : LinkEnv) (sourceName : String) (src : SrcNode) :
    Except Unit (String × TgtNode) :=
  match createHardLink src with
  | .ok t => .ok ("hardlink", t)
  | .error _ =>
    if !env.symlinkFails then .ok ("symlink", .symlinked sourceName sourceName)
    else if !env.wholeCopyFails then .ok ("copy", copyTree src)
    else .error ()

/-- Shape of a tree: names and file bytes, forgetting how each file was
produced.  Two trees with the same shape are byte-identical. -/
inductive Shape where
  | file (name content : String)
  | dir (name : String) (children : List Shape)

mutual

/-- Shape of a source tree. -/
def srcShape : SrcNode → Shape
  | .file name content _ _ => .file name content
  | .dir name children => .dir name (srcShapes children)

def srcShapes : List SrcNode → List Shape
  | [] => []
  | c :: rest => srcShape c :: srcShapes rest

end

mutual

/-- Shape of a target tree (a symlink node has no intrinsic shape and is
mapped to a file node marking the link). -/
def tgtShape : TgtNode → Shape
  | .hardlinked name content => .file name content
  | .copied name content => .file name content
  | .symlinked name target => .file name target
  | .dir name children => .dir name (tgtShapes children)

def tgtShapes : List TgtNode → List Shape
  | [] => []
  | c :: rest => tgtShape c :: tgtShapes rest

end

mutual

/-- Does every file of the source tree admit a successful byte copy? -/
def allCopiesOk : SrcNode → Bool
  | .file _ _ _ copyFails => !copyFails
  | .dir _ children => allCopiesOkList children

def allCopiesOkList : List SrcNode → Bool
  | [] => true
  | c :: rest => allCopiesOk c && allCopiesOkList rest

end

/-- Result of `fs.lstat` on a path: `none` when the path does not exist or
cannot be inspected (`lstat` throws), otherwise the kind of entry found. -/
inductive FileKind where
  | file
  | dir
  | symlink
deriving DecidableEq, Repr

/-- Embedding of `LinkManager.isLink` (link-manager.js lines 80-87):
`lstat` the path and report whether it is a symbolic link; if `lstat` throws
(path absent or uninspectable) return `false`. -/
def isLink (status : String → Option FileKind) (targetPath : String) : Bool :=
  match status targetPath with
  | none => false
  | some kind => kind = FileKind.symlink

/-! ## Association-list lemmas -/

theorem lookup_setKey_self {α : Type} (l : List (String × α)) (k : String)
    (v : α) : lookup (setKey l k v) k = some v := by
  induction l with
  | nil => simp [setKey, lookup]
  | cons hd tl ih =>
    by_cases h : hd.1 = k
    · simp [setKey, h, lookup]
    · simp [setKey, h, lookup, ih]

theorem lookup_setKey_ne {α : Type} (l : List (String × α)) (k k' : String)
    (v : α) (h : k' ≠ k) : lookup (setKey l k v) k' = lookup l k' := by
  have h' : ¬(k = k') := fun hh => h hh.symm
  induction l with
  | nil => simp [setKey, lookup, h']
  | cons hd tl ih =>
    by_cases hk : hd.1 = k
    · simp [setKey, hk, lookup, h']
    · by_cases hk' : hd.1 = k'
      · simp [setKey, hk, lookup, hk', h]
      · simp [setKey, hk, lookup, hk', ih]

theorem keys_setKey_mem {α : Type} (l : List (String × α)) (k : String)
    (v : α) (h : k ∈ keys l) : keys (setKey l k v) = keys l := by
  induction l with
  | nil => simp [keys] at h
  | cons hd tl ih =>
    by_cases hk : hd.1 = k
    · simp [setKey, hk, keys]
    · have : k ∈ keys tl := by
        rcases (by simpa [keys] using h) with h' | h'
        · exact absurd h'.symm hk
        · simpa [keys] using h'
      simp [setKey, hk, keys]
      simpa [keys] using ih this

theorem keys_setKey_not_mem {α : Type} (l : List (String × α)) (k : String)
    (v : α) (h : k ∉ keys l) : keys (setKey l k v) = keys l ++ [k] := by
  induction l with
  | nil => simp [setKey, keys]
  | cons hd tl ih =>
    have h1 : hd.1 ≠ k := by
      intro hh; exact h (by simp [keys, hh])
    have h2 : k ∉ keys tl := by
      intro hh; exact h (by simp [keys]; right; simpa [keys] using hh)
    simp [setKey, h1, keys]
    simpa [keys] using ih h2

theorem nodup_keys_setKey {α : Type} (l : List (String × α)) (k : String)
    (v : α) (h : (keys l).Nodup) : (keys (setKey l k v)).Nodup := by
  by_cases hm : k ∈ keys l
  · rw [keys_setKey_mem l k v hm]; exact h
  · rw [keys_setKey_not_mem l k v hm]
    simpa using List.Nodup.append h (by simp) (by simpa using hm)

theorem lookup_filterOut_self {α : Type} (l : List (String × α)) (k : String) :
    lookup (l.filter (fun kv => !(kv.1 = k))) k = none := by
  induction l with
  | nil => simp [lookup]
  | cons hd tl ih =>
    by_cases h : hd.1 = k
    · simp [List.filter, h, ih]
    · simp [List.filter, h, lookup, ih]

/-! ## C10: isLink -/

/-- C10: `isLink` never raises; it returns `false` for a path that does not
exist or cannot be inspected (`lstat` yields nothing), and returns `true`
exactly for a path that currently is a symbolic link. -/
theorem isLink_spec (status : String → Option FileKind) (p : String) :
    (status p = none → isLink status p = false)
    ∧ (isLink status p = true ↔ status p = some FileKind.symlink) := by
  constructor
  · intro h; simp [isLink, h]
  · cases h : status p with
    | none => simp [isLink, h]
    | some kind => cases kind <;> simp [isLink, h]

/-- Witness for `isLink_spec` at a world where the path is absent. -/
theorem isLink_spec_witness : isLink (fun _ => none) "missing" = false :=
  (isLink_spec (fun _ => none) "missing").1 rfl

/-! ## C9: touchPackage frame property -/

/-- C9: for an identity with existing metadata, `touchPackage` shallow-merges
`{ lastUsed: now }` into the record: afterwards `lastUsed` holds the new
timestamp and every other field of the record is unchanged. -/
theorem touchPackage_only_lastUsed (store : MetaStore)
    (name version now : String) (rec : MetaRecord)
    (h : lookup store (metaFileName name version) = some rec) :
    lookup (touchPackage store name version now) (metaFileName name version)
      = some (setKey rec "lastUsed" (.str now))
    ∧ lookup (setKey rec "lastUsed" (.str now)) "lastUsed"
      = some (.str now)
    ∧ ∀ k, k ≠ "lastUsed" →
        lookup (setKey rec "lastUsed" (.str now)) k = lookup rec k := by
  refine ⟨?_, lookup_setKey_self _ _ _, fun k hk => lookup_setKey_ne _ _ _ _ hk⟩
  show lookup (updateMetadata store name version _) _ = _
  rw [updateMetadata]
  simp only [h, Option.getD_some]
  rw [show mergeShallow rec [("lastUsed", JsonValue.str now)]
        = setKey rec "lastUsed" (.str now) from rfl]
  exact lookup_setKey_self _ _ _

/-- Witness for `touchPackage_only_lastUsed` at a concrete store. -/
theorem touchPackage_only_lastUsed_witness :
    lookup
        (touchPackage
          [("lodash@4.17.21.json",
            [("installedAt", JsonValue.str "2024-01-01"),
             ("lastUsed", JsonValue.str "2024-01-01"),
             ("size", JsonValue.num 100)])]
          "lodash" "4.17.21" "2024-02-02")
        (metaFileName "lodash" "4.17.21")
      = some (setKey
          [("installedAt", JsonValue.str "2024-01-01"),
           ("lastUsed", JsonValue.str "2024-01-01"),
           ("size", JsonValue.num 100)]
          "lastUsed" (JsonValue.str "2024-02-02"))
    ∧ lookup
        (setKey
          [("installedAt", JsonValue.str "2024-01-01"),
           ("lastUsed", JsonValue.str "2024-01-01"),
           ("size", JsonValue.num 100)]
          "lastUsed" (JsonValue.str "2024-02-02")) "installedAt"
      = some (JsonValue.str "2024-01-01") := by
  have h := touchPackage_only_lastUsed
    [("lodash@4.17.21.json",
      [("installedAt", JsonValue.str "2024-01-01"),
       ("lastUsed", JsonValue.str "2024-01-01"),
       ("size", JsonValue.num 100)])]
    "lodash" "4.17.21" "2024-02-02"
    [("installedAt", JsonValue.str "2024-01-01"),
     ("lastUsed", JsonValue.str "2024-01-01"),
     ("size", JsonValue.num 100)]
    (by decide)
  refine ⟨h.1, ?_⟩
  rw [h.2.2 "installedAt" (by decide)]; decide

/-! ## C7: deletePackage -/

/-- C7 counterexample: with a world where removing the slot directory fails
but removing the metadata file would succeed, `deletePackage` never attempts
the metadata removal and leaves the metadata behind — the two removals are
not independent best-effort operations. -/
theorem deletePackage_not_independent :
    deletePackage ⟨true, false⟩ ⟨true, true⟩
      = ⟨false, true, false, ⟨true, true⟩⟩ := by decide

/-- C7 amended: `deletePackage` removes the slot directory and then the
metadata record sequentially inside one `try`; it never throws, returns
`true` exactly when both removals succeed, always attempts the slot removal,
attempts the metadata removal only when the slot removal succeeded (a slot
failure skips it and leaves the filesystem unchanged), and when only the
metadata removal fails the slot is gone with the metadata left behind. -/
theorem deletePackage_amended (env : DeleteEnv) (fsState : CacheFs) :
    ((deletePackage env fsState).returned
      = (!env.slotRmFails && !env.metaRmFails))
    ∧ ((deletePackage env fsState).slotRmAttempted = true)
    ∧ ((deletePackage env fsState).metaRmAttempted = !env.slotRmFails)
    ∧ ((deletePackage env fsState).fs.slotExists
      = (env.slotRmFails && fsState.slotExists))
    ∧ ((deletePackage env fsState).fs.metaExists
      = ((env.slotRmFails || env.metaRmFails) && fsState.metaExists)) := by
  rcases env with ⟨s, m⟩
  rcases fsState with ⟨a, b⟩
  cases s <;> cases m <;> cases a <;> cases b <;> decide

/-! ## C3: in-flight download deduplication -/

/-- C3: when an entry for the key of `(name, version, targetPath)` is already
in the in-flight registry, `downloadPackage` returns that existing pending
execution and leaves the client state — in particular the log of started
underlying executions — untouched, so no second fetch/extract execution
starts; and whenever the pending operation for a key settles, with success or
with failure, its in-flight entry is removed, so a later call can retry. -/
theorem downloadPackage_dedup_and_clear (s : ClientState)
    (packageName version targetPath : String) (execId : Nat)
    (h : lookup s.activeDownloads (downloadKey packageName version targetPath)
          = some execId) :
    downloadPackageStart s packageName version targetPath = (execId, s)
    ∧ ∀ (s' : ClientState) (outcome : Outcome),
        lookup (downloadPackageSettle s' packageName version targetPath
            outcome).activeDownloads
          (downloadKey packageName version targetPath) = none := by
  refine ⟨?_, fun s' outcome => ?_⟩
  · simp [downloadPackageStart, h]
  · exact lookup_filterOut_self _ _

/-- Witness for `downloadPackage_dedup_and_clear` at a client that already
has the key in flight. -/
theorem downloadPackage_dedup_witness :
    downloadPackageStart ⟨[("lodash@4.17.21:/p", 7)], 8, [7]⟩
        "lodash" "4.17.21" "/p" = (7, ⟨[("lodash@4.17.21:/p", 7)], 8, [7]⟩)
    ∧ lookup (downloadPackageSettle ⟨[("lodash@4.17.21:/p", 7)], 8, [7]⟩
          "lodash" "4.17.21" "/p" Outcome.failure).activeDownloads
        (downloadKey "lodash" "4.17.21" "/p") = none := by
  have h := downloadPackage_dedup_and_clear ⟨[("lodash@4.17.21:/p", 7)], 8, [7]⟩
    "lodash" "4.17.21" "/p" 7 (by decide)
  exact ⟨h.1, h.2 _ Outcome.failure⟩

/-! ## C8: download failure cleanup -/

/-- C8 counterexample: when the extraction step fails with message `boom`,
`_performDownload` removes the staging directory but re-raises a new wrapped
error `Failed to download pkg-a@1.0.0: boom`, not the original error
unchanged. -/
theorem performDownload_wraps_error :
    performDownload
        ⟨.ok ⟨[("1.0.0", ⟨⟨"http://t"⟩⟩)]⟩, .ok (), .error "boom"⟩
        "pkg-a" "1.0.0" "/target"
      = (.error "Failed to download pkg-a@1.0.0: boom", ⟨true, false⟩)
    ∧ ("Failed to download pkg-a@1.0.0: boom" ≠ "boom") := by
  constructor
  · rfl
  · decide

/-- C8 amended: on a tarball-fetch or extraction failure during a download,
the staging directory (created only after the metadata fetch and the version
lookup succeed) is removed, and the failure is re-raised to all current
awaiters of the in-flight key wrapped as a new error
`Failed to download name@version: originalMessage` rather than unchanged. -/
theorem performDownload_failure_cleanup (env : DownloadEnv)
    (packageName version targetPath : String) (md : RegMetadata)
    (vd : RegVersionData) (e : String)
    (hmd : env.metadata = .ok md)
    (hv : lookup md.versions version = some vd)
    (hfail : env.tarballFetch = .error e
      ∨ (env.tarballFetch = .ok () ∧ env.extraction = .error e)) :
    performDownload env packageName version targetPath =
      (.error ("Failed to download " ++ packageName ++ "@" ++ version ++
               ": " ++ e),
       ⟨true, false⟩) := by
  rcases hfail with hf | ⟨hf, hx⟩
  · simp [performDownload, hmd, hv, hf]
  · simp [performDownload, hmd, hv, hf, hx]

/-- Witness for `performDownload_failure_cleanup` at a failing tarball
fetch. -/
theorem performDownload_failure_cleanup_witness :
    performDownload
        ⟨.ok ⟨[("1.0.0", ⟨⟨"http://t"⟩⟩)]⟩, .error "net down", .ok ()⟩
        "left-pad" "1.0.0" "/target"
      = (.error "Failed to download left-pad@1.0.0: net down",
         ⟨true, false⟩) := by
  have h := performDownload_failure_cleanup
    ⟨.ok ⟨[("1.0.0", ⟨⟨"http://t"⟩⟩)]⟩, .error "net down", .ok ()⟩
    "left-pad" "1.0.0" "/target"
    ⟨[("1.0.0", ⟨⟨"http://t"⟩⟩)]⟩ ⟨⟨"http://t"⟩⟩ "net down"
    rfl (by decide) (Or.inl rfl)
  exact h

/-! ## C2: selectVersion and the numeric-substring fallback -/

/-- C2 counterexample: with only version `1.0.0` available and the
non-semver range `x1.0.0x`, no available version satisfies the range, yet
`selectVersion` silently returns `1.0.0` by stripping the range to its
numeric substring (part_003 lines 184-190) instead of returning none. -/
theorem selectVersion_coerces_substring :
    (["1.0.0"].all (fun v => !(satisfies v "x1.0.0x")) = true)
    ∧ selectVersion [("1.0.0", ⟨[]⟩)] "x1.0.0x" = some "1.0.0" := by
  constructor
  · decide
  · decide

/-- Auxiliary fold fact for `maxSatisfying`: when every listed version fails
the range, the fold keeps its accumulator. -/
theorem maxSatisfying_foldl_const (versionList : List String) (range : String)
    (acc : Option String)
    (h : versionList.all (fun v => !(satisfies v range)) = true) :
    versionList.foldl
      (fun best v =>
        if satisfies v range then
          match best with
          | none => some v
          | some b =>
            match parseVersion b, parseVersion v with
            | some pb, some pv => if verLt pb pv then some v else some b
            | _, _ => some b
        else best)
      acc = acc := by
  induction versionList generalizing acc with
  | nil => rfl
  | cons hd tl ih =>
    have hall := h
    simp only [List.all_cons, Bool.and_eq_true] at hall
    have hhd : satisfies hd range = false := by
      rcases hall with ⟨h1, _⟩
      simpa using h1
    have htl : tl.all (fun v => !(satisfies v range)) = true := hall.2
    simp only [List.foldl, hhd]
    exact ih _ htl

/-- No listed version satisfies the range: `maxSatisfying` returns none. -/
theorem maxSatisfying_none (versionList : List String) (range : String)
    (h : versionList.all (fun v => !(satisfies v range)) = true) :
    maxSatisfying versionList range = none :=
  maxSatisfying_foldl_const versionList range none h

/-- C2 amended: when no available version satisfies the range, and the range
stripped to its digits and dots is not itself one of the available versions,
`selectVersion` returns none (the tag `latest` is excluded: it is special-
cased to the maximum available version).  When the stripped string is an
available version the code instead silently coerces, as the counterexample
shows. -/
theorem selectVersion_none_when_unsatisfied
    (versions : List (String × VersionRecord)) (range : String)
    (hall : (versions.map (·.1)).all (fun v => !(satisfies v range)) = true)
    (hclean : containsString (versions.map (·.1)) (cleanedRange range) = false)
    (hlatest : range ≠ "latest") :
    selectVersion versions range = none := by
  by_cases hstar : range = "*"
  · subst hstar
    simp only [selectVersion, true_or, if_true]
    exact maxSatisfying_none _ _ hall
  · simp only [selectVersion]
    rw [if_neg (by simp [hstar, hlatest])]
    rw [maxSatisfying_none _ _ hall]
    simp [hclean]

/-- Witness for `selectVersion_none_when_unsatisfied`: `^5.0.0` over
`{1.0.0, 2.0.0}` selects nothing. -/
theorem selectVersion_none_witness :
    selectVersion [("1.0.0", ⟨[]⟩), ("2.0.0", ⟨[]⟩)] "^5.0.0" = none :=
  selectVersion_none_when_unsatisfied
    [("1.0.0", ⟨[]⟩), ("2.0.0", ⟨[]⟩)] "^5.0.0"
    (by decide) (by decide) (by decide)

/-! ## C4: memoized resolution -/

/-- C4: when `"name@range"` is already memoized, `resolveDependency` returns
the memoized version, does not touch the memo or the metadata-query log (so
the metadata provider is not queried), and ensures `tree[name]` exists,
creating an entry with the memoized version and an empty dependency set when
the name is not yet in the tree. -/
theorem resolveDependency_memoHit (reg : Registry) (st : RState)
    (name range : String) (depth : Nat) (v : String)
    (hdepth : depth ≤ 100)
    (hmemo : lookup st.memo (name ++ "@" ++ range) = some v) :
    resolveDependency reg name range st depth =
      .ok (v, match lookup st.tree name with
              | some _ => st
              | none => { st with tree := setKey st.tree name ⟨v, []⟩ }) := by
  have hgt : ¬depth > 100 := by omega
  cases htree : lookup st.tree name <;>
    simp [resolveDependency, hgt, hmemo, htree]

/-- Witness for `resolveDependency_memoHit`: a memoized range is answered
from the memo and materialized into an empty tree. -/
theorem resolveDependency_memoHit_witness :
    resolveDependency [] "lodash" "^4.17.21"
        ⟨[], [("lodash@^4.17.21", "4.17.21")], []⟩ 0 =
      .ok ("4.17.21",
           ⟨[("lodash", ⟨"4.17.21", []⟩)],
            [("lodash@^4.17.21", "4.17.21")], []⟩) := by
  have h := resolveDependency_memoHit []
    ⟨[], [("lodash@^4.17.21", "4.17.21")], []⟩
    "lodash" "^4.17.21" 0 "4.17.21" (by omega) (by decide)
  simpa [lookup, setKey] using h

/-! ## C5: the depth guard and the two-node cycle -/

/-- Registry with a two-node dependency cycle, as in the repository's own
resolver test: `pkg-a@1.0.0` depends on `pkg-b@^1.0.0` and `pkg-b@1.0.0`
depends on `pkg-a@^1.0.0`. -/
def cycleRegistry : Registry :=
  [("pkg-a", ⟨[("1.0.0", ⟨[("pkg-b", "^1.0.0")]⟩)]⟩),
   ("pkg-b", ⟨[("1.0.0", ⟨[("pkg-a", "^1.0.0")]⟩)]⟩)]

/-- C5 counterexample: resolving the two-node cycle
`pkg-a -> pkg-b -> pkg-a` from depth 0 does NOT raise
`CircularDependencyError`: the memo entry recorded for `pkg-a@^1.0.0` before
recursing (and the compatible tree entry) cut the cycle at depth 2, and the
resolution completes successfully.  The repository's own test only obtains
the error by starting the call at depth 101. -/
theorem twoNodeCycle_resolves :
    resolve cycleRegistry [("pkg-a", "^1.0.0")] =
      .ok ⟨[("pkg-a", ⟨"1.0.0", [("pkg-b", "^1.0.0")]⟩),
            ("pkg-b", ⟨"1.0.0", [("pkg-a", "^1.0.0")]⟩)],
           [("pkg-a@^1.0.0", "1.0.0"), ("pkg-b@^1.0.0", "1.0.0")],
           ["pkg-a", "pkg-b"]⟩ := by
  simp +decide [resolve, resolveDeps, resolveDependency, resolveFresh, lookup,
    setKey, selectVersion, maxSatisfying, cleanedRange, containsString,
    cycleRegistry]

/-- C5 amended: `resolveDependency` fails immediately with
`CircularDependencyError` exactly when invoked with `depth` exceeding the
fixed bound of 100, for every registry, name, range and state; a two-node
cycle resolved from depth 0 never drives the depth past the bound (see the
counterexample), so for such a graph the error only arises when the call
already starts beyond the bound, as the repository's test does. -/
theorem resolveDependency_depth_guard (reg : Registry) (name range : String)
    (st : RState) (depth : Nat) (h : depth > 100) :
    resolveDependency reg name range st depth = .error (.circular name) := by
  simp [resolveDependency, h]

/-- Witness for `resolveDependency_depth_guard` at the repository test's
input: the cycle registry, called at depth 101. -/
theorem resolveDependency_depth_guard_witness :
    resolveDependency cycleRegistry "pkg-a" "^1.0.0" ⟨[], [], []⟩ 101 =
      .error (.circular "pkg-a") :=
  resolveDependency_depth_guard cycleRegistry "pkg-a" "^1.0.0" ⟨[], [], []⟩
    101 (by omega)

/-! ## C1: flat-tree invariant and the conflict policy -/

/-- Every tree produced by a successful `resolveDependency` call from a state
whose tree has no duplicate keys again has no duplicate keys: the tree is
only ever modified through `setKey`, the JS object assignment.  Proved by
functional induction over the mutual recursion. -/
theorem resolveDependency_keeps_tree_nodup (reg : Registry) :
    ∀ (name range : String) (st : RState) (depth : Nat)
      (out : String × RState),
      resolveDependency reg name range st depth = Except.ok out →
      (keys st.tree).Nodup → (keys out.2.tree).Nodup := by
  refine resolveDependency.induct reg
    (fun name range st depth hle =>
      ∀ out, resolveFresh reg name range st depth hle = Except.ok out →
        (keys st.tree).Nodup → (keys out.2.tree).Nodup)
    (fun deps st depth =>
      ∀ out, resolveDeps reg deps st depth = Except.ok out →
        (keys st.tree).Nodup → (keys out.tree).Nodup)
    (fun name range st depth =>
      ∀ out, resolveDependency reg name range st depth = Except.ok out →
        (keys st.tree).Nodup → (keys out.2.tree).Nodup)
    ?_ ?_ ?_ ?_ ?_ ?_ ?_ ?_ ?_ ?_ ?_ ?_ ?_
  · intro name range st depth hle hreg out hok hnd
    simp [resolveFresh, hreg] at hok
  · intro name range st depth hle metadata hreg hsel out hok hnd
    simp [resolveFresh, hreg, hsel] at hok
  · intro name range st depth hle metadata hreg b hsel hrec out hok hnd
    simp [resolveFresh, hreg, hsel, hrec] at hok
  · intro name range st depth hle metadata hreg
    dsimp only
    intro b hsel pkgInfo hrec e hdeps ih out hok hnd
    simp [resolveFresh, hreg, hsel, hrec, hdeps] at hok
  · intro name range st depth hle metadata hreg
    dsimp only
    intro b hsel pkgInfo hrec st3 hdeps ih out hok hnd
    simp [resolveFresh, hreg, hsel, hrec, hdeps] at hok
    have h3 := ih st3 hdeps (nodup_keys_setKey _ _ _ hnd)
    cases hok
    exact h3
  · intro st depth out hok hnd
    simp [resolveDeps] at hok
    cases hok
    exact hnd
  · intro st depth depName depRange rest e hhead ih out hok hnd
    simp [resolveDeps, hhead] at hok
  · intro st depth depName depRange rest fst st' hhead ih3 ih2 out hok hnd
    simp only [resolveDeps, hhead] at hok
    exact ih2 out hok (ih3 (fst, st') hhead hnd)
  · intro name range st depth hgt out hok hnd
    simp [resolveDependency, hgt] at hok
  · intro name range st depth hgt matched hmemo out hok hnd
    cases htree : lookup st.tree name <;>
      simp [resolveDependency, hgt, hmemo, htree] at hok
    · cases hok
      exact nodup_keys_setKey _ _ _ hnd
    · cases hok
      exact hnd
  · intro name range st depth hgt hmemo val htree hsat out hok hnd
    simp [resolveDependency, hgt, hmemo, htree, hsat] at hok
    cases hok
    exact hnd
  · intro name range st depth hle hmemo val htree hsat ih out hok hnd
    simp only [resolveDependency, dif_neg hle, hmemo, htree] at hok
    rw [if_neg hsat] at hok
    exact ih out hok hnd
  · intro name range st depth hle hmemo htree ih out hok hnd
    simp only [resolveDependency, dif_neg hle, hmemo, htree] at hok
    exact ih out hok hnd

/-- Registry exhibiting the conflict policy: package `a` is published at
`1.5.0` and `2.0.0`, `c@1.0.0` requires `a@^2.0.0`, `d@1.0.0` requires
`a@^1.0.0`. -/
def conflictRegistry : Registry :=
  [("a", ⟨[("1.5.0", ⟨[]⟩), ("2.0.0", ⟨[]⟩)]⟩),
   ("c", ⟨[("1.0.0", ⟨[("a", "^2.0.0")]⟩)]⟩),
   ("d", ⟨[("1.0.0", ⟨[("a", "^1.0.0")]⟩)]⟩)]

/-- Resolver state reached inside
`resolve conflictRegistry [(a,^1.0.0), (c,1.0.0), (d,1.0.0)]` at the moment
the dependency `a@^1.0.0` of `d` is resolved: `a` is in the tree at `2.0.0`
(overwritten by `c`'s requirement) and `a@^1.0.0` is memoized at `1.5.0`. -/
def conflictMidState : RState :=
  ⟨[("a", ⟨"2.0.0", []⟩),
    ("c", ⟨"1.0.0", [("a", "^2.0.0")]⟩),
    ("d", ⟨"1.0.0", [("a", "^1.0.0")]⟩)],
   [("a@^1.0.0", "1.5.0"), ("c@1.0.0", "1.0.0"), ("a@^2.0.0", "2.0.0"),
    ("d@1.0.0", "1.0.0")],
   ["a", "c", "a", "d"]⟩

/-- C1 counterexample: within a single `resolve` call, a later
`resolveDependency` for a name already present in the tree, whose present
version does NOT satisfy the requested range, neither reuses the present
version nor overwrites `tree[name]` when the `"name@range"` key is memoized:
the inner call for `a@^1.0.0` (requested by `d`) finds `tree.a = 2.0.0`,
`2.0.0` does not satisfy `^1.0.0` and the newly selected version would be
`1.5.0`, yet the call returns `1.5.0` from the memo and leaves the state —
in particular `tree.a = 2.0.0` — completely unchanged, because the memo
check precedes the tree check (part_003 lines 119-134). -/
theorem resolveDependency_memo_skips_overwrite :
    resolve conflictRegistry [("a", "^1.0.0"), ("c", "1.0.0"), ("d", "1.0.0")]
      = .ok conflictMidState
    ∧ resolveDependency conflictRegistry "a" "^1.0.0" conflictMidState 1
      = .ok ("1.5.0", conflictMidState)
    ∧ lookup conflictMidState.tree "a" = some ⟨"2.0.0", []⟩
    ∧ satisfies "2.0.0" "^1.0.0" = false
    ∧ selectVersion [("1.5.0", ⟨[]⟩), ("2.0.0", ⟨[]⟩)] "^1.0.0"
      = some "1.5.0" := by
  refine ⟨?_, ?_, by decide, by decide, by decide⟩
  · simp +decide [resolve, resolveDeps, resolveDependency, resolveFresh,
      lookup, setKey, selectVersion, maxSatisfying, cleanedRange,
      containsString, conflictRegistry, conflictMidState]
  · simp +decide [resolveDependency, lookup, conflictMidState]

/-- C1 amended: the flat tree never holds two entries for one name (keys
stay duplicate-free through every successful call), and when
`resolveDependency` is called for a name already present in the tree and the
`"name@range"` key is NOT memoized, it reuses the existing version if that
version satisfies the requested range, and otherwise overwrites `tree[name]`
with the newly selected version and its dependencies (memoizing the range)
before recursively resolving those dependencies — last-writer-wins.  On a
memo hit the existing tree entry is kept unchanged even when it does not
satisfy the range (see the counterexample). -/
theorem resolveDependency_present_policy
    (reg : Registry) (st : RState) (name range : String) (depth : Nat)
    (entry : TreeEntry)
    (hdepth : depth ≤ 100)
    (hmemo : lookup st.memo (name ++ "@" ++ range) = none)
    (htree : lookup st.tree name = some entry) :
    (satisfies entry.version range = true →
      resolveDependency reg name range st depth = .ok (entry.version, st))
    ∧ (satisfies entry.version range = false →
       ∀ (md : PackageMetadata) (version : String) (rec : VersionRecord),
         lookup reg name = some md →
         selectVersion md.versions range = some version →
         lookup md.versions version = some rec →
         resolveDependency reg name range st depth =
           match resolveDeps reg rec.dependencies
               ⟨setKey st.tree name ⟨version, rec.dependencies⟩,
                setKey st.memo (name ++ "@" ++ range) version,
                st.queries ++ [name]⟩ (depth + 1) with
           | .error e => .error e
           | .ok st3 => .ok (version, st3))
    ∧ ((keys st.tree).Nodup →
       ∀ out, resolveDependency reg name range st depth = .ok out →
         (keys out.2.tree).Nodup) := by
  have hgt : ¬depth > 100 := by omega
  refine ⟨?_, ?_, ?_⟩
  · intro hsat
    simp [resolveDependency, hgt, hmemo, htree, hsat]
  · intro hsat md version rec hreg hsel hrec
    simp only [resolveDependency, dif_neg hgt, hmemo, htree]
    rw [if_neg (by simp [hsat])]
    simp only [resolveFresh, hreg, hsel, hrec]
  · intro hnd out hok
    exact resolveDependency_keeps_tree_nodup reg name range st depth out
      hok hnd

/-- Witness for `resolveDependency_present_policy`: reuse of a satisfying
tree entry at a concrete state. -/
theorem resolveDependency_present_policy_witness :
    resolveDependency [] "a" "^1.0.0" ⟨[("a", ⟨"1.5.0", []⟩)], [], []⟩ 0
      = .ok ("1.5.0", ⟨[("a", ⟨"1.5.0", []⟩)], [], []⟩) := by
  have h := resolveDependency_present_policy []
    ⟨[("a", ⟨"1.5.0", []⟩)], [], []⟩ "a" "^1.0.0" 0 ⟨"1.5.0", []⟩
    (by omega) (by decide) (by decide)
  exact h.1 (by decide)

/-! ## C6: hardlink mode with per-file copy fallback -/

mutual

/-- Hardlinking a directory whose files all admit a byte copy succeeds and
reproduces the directory's shape. -/
theorem createHardLink_dirOk (dirName : String) (children : List SrcNode)
    (h : allCopiesOkList children = true) :
    ∃ ts, createHardLink (.dir dirName children) = .ok (.dir dirName ts)
      ∧ tgtShapes ts = srcShapes children := by
  obtain ⟨ts, h1, h2⟩ := linkEntries_copiesOk children h
  exact ⟨ts, by simp [createHardLink, h1], h2⟩

/-- Processing directory entries whose files all admit a byte copy succeeds
(every hardlink failure falls back to a copy of that one file) and
reproduces the entries' shapes. -/
theorem linkEntries_copiesOk (entries : List SrcNode)
    (h : allCopiesOkList entries = true) :
    ∃ ts, linkEntries entries = .ok ts ∧ tgtShapes ts = srcShapes entries := by
  match entries with
  | [] => exact ⟨[], rfl, rfl⟩
  | .file n c lf cf :: rest =>
    have hh : (!cf) = true ∧ allCopiesOkList rest = true := by
      simpa [allCopiesOkList, allCopiesOk, Bool.and_eq_true] using h
    obtain ⟨ts, h1, h2⟩ := linkEntries_copiesOk rest hh.2
    cases hlf : lf with
    | false =>
      exact ⟨.hardlinked n c :: ts,
        by simp [linkEntries, hlf, h1],
        by simp [tgtShapes, srcShapes, tgtShape, srcShape, h2]⟩
    | true =>
      exact ⟨.copied n c :: ts,
        by simp [linkEntries, hlf, hh.1, h1],
        by simp [tgtShapes, srcShapes, tgtShape, srcShape, h2]⟩
  | .dir n cs :: rest =>
    have hh : allCopiesOkList cs = true ∧ allCopiesOkList rest = true := by
      simpa [allCopiesOkList, allCopiesOk, Bool.and_eq_true] using h
    obtain ⟨ts1, h1, h2⟩ := createHardLink_dirOk n cs hh.1
    obtain ⟨ts2, h3, h4⟩ := linkEntries_copiesOk rest hh.2
    exact ⟨.dir n ts1 :: ts2,
      by simp [linkEntries, h1, h3],
      by simp [tgtShapes, srcShapes, tgtShape, srcShape, h2, h4]⟩

end

/-- C6 counterexample: `linkPackage` on a source tree that is a single file
whose hardlink creation fails (and whose byte copy would succeed) does not
copy that file and does not return `"hardlink"`: the top-level single-file
branch of `createHardLink` (link-manager.js line 61) has no per-file
fallback, so the hardlink strategy aborts and the operation falls back to
the symlink strategy. -/
theorem linkPackage_singleFile_no_fallback :
    linkPackage ⟨false, false⟩ "slot" (.file "a.txt" "data" true false)
      = .ok ("symlink", .symlinked "slot" "slot")
    ∧ allCopiesOk (.file "a.txt" "data" true false) = true :=
  ⟨rfl, rfl⟩

/-- C6 amended: for every source tree rooted at a directory, when the
hardlink strategy is in progress and a single file's hardlink creation fails
for any reason, that one file is copied byte-for-byte instead (the copy
itself succeeding), the failure never aborts the overall link operation, and
`linkPackage` still returns `"hardlink"` with a target tree byte-identical
to the source; a source tree that is a single file gets no such per-file
fallback (see the counterexample). -/
theorem linkPackage_hardlink_fallback (env : LinkEnv)
    (sourceName dirName : String) (children : List SrcNode)
    (h : allCopiesOk (.dir dirName children) = true) :
    ∃ t, createHardLink (.dir dirName children) = .ok t
      ∧ linkPackage env sourceName (.dir dirName children)
        = .ok ("hardlink", t)
      ∧ tgtShape t = srcShape (.dir dirName children) := by
  have h' : allCopiesOkList children = true := by
    simpa [allCopiesOk] using h
  obtain ⟨ts, h1, h2⟩ := createHardLink_dirOk dirName children h'
  exact ⟨.dir dirName ts, h1,
    by simp [linkPackage, h1],
    by simp [tgtShape, srcShape, h2]⟩

/-- Witness for `linkPackage_hardlink_fallback`: a directory with one file
whose hardlink fails (it gets copied) and one that hardlinks fine; the whole
operation still reports `"hardlink"`. -/
theorem linkPackage_hardlink_fallback_witness :
    linkPackage ⟨false, false⟩ "slot"
        (.dir "pkg" [.file "a" "x" true false, .file "b" "y" false false])
      = .ok ("hardlink",
             .dir "pkg" [.copied "a" "x", .hardlinked "b" "y"]) := by
  obtain ⟨t, h1, h2, _⟩ := linkPackage_hardlink_fallback ⟨false, false⟩
    "slot" "pkg" [.file "a" "x" true false, .file "b" "y" false false]
    (by rfl)
  have h0 : createHardLink
      (.dir "pkg" [.file "a" "x" true false, .file "b" "y" false false])
      = Except.ok (TgtNode.dir "pkg" [.copied "a" "x", .hardlinked "b" "y"]) :=
    rfl
  have ht := Except.ok.inj (h0.symm.trans h1)
  rw [h2, ← ht]

end FastCache
